import Mathlib

/-!
Verification of the Adelaide property dashboard's data ingestion/merge
pipeline and time-series analytics engine (`src/app.py`).

The embedding models:
* pandas tables keyed by `Suburb` (`Table`), with cells that are either a
  present rational or a missing value (`Val := Option ℚ`, `none` = NaN);
* `_safe_read_csv` (`safeReadCsv`) over raw CSVs;
* the five left-merges of `load_data` (`mergeLeft`, `step`, `loadMerge`,
  `load_data`) and the derived crime-rate column (`addDerivedCrime`);
* the free-text period parser (`extractYear`, `extractQuarter`) used by
  `create_price_chart` and `compute_yoy_growth`;
* the growth analytics (`computeYoy`, `addGrowth`, `cagrSummary`,
  `bestRow`/`worstRow`, `renderGrowthSummary`).
-/

set_option maxHeartbeats 1000000
set_option maxRecDepth 4000

/-- A cell of a pandas table: a present rational or NaN (`none`). -/
abbrev Val := Option ℚ

/-- A pandas DataFrame keyed by the `Suburb` column: the key is held apart
from the remaining columns; each row is a key together with the cells of
the non-key columns, positionally aligned with `cols`. -/
structure Table where
  cols : List String
  rows : List (String × List Val)
deriving DecidableEq, Repr

/-- The empty DataFrame (`pd.DataFrame()`). -/
def Table.empty : Table := ⟨[], []⟩

/-- The list of region keys of a table, in row order. -/
def Table.keys (t : Table) : List String := t.rows.map (fun r => r.1)

/-- Well-formedness: every row has exactly one cell per column. -/
def Table.WF (t : Table) : Prop := ∀ r ∈ t.rows, r.2.length = t.cols.length

/-- The cell of column `c` in a row, walking column names and cells in
parallel (first occurrence of `c` wins); missing column gives NaN. -/
def rowLookup : List String → List Val → String → Val
  | [], _, _ => none
  | _ :: _, [], _ => none
  | c' :: cs, v :: vs, c => if c' == c then v else rowLookup cs vs c

/-- The value of cell (`k`, `c`) of a table: NaN when the row or the
column is absent (mirrors the NaN produced by an unmatched left join). -/
def Table.cellVal (t : Table) (k c : String) : Val :=
  match t.rows.find? (fun r => r.1 == k) with
  | some r => rowLookup t.cols r.2 c
  | none => none

/-- Project a row onto the columns satisfying `p` (column selection
`df[cols]` / `usecols=`). -/
def projectRow : List String → List Val → (String → Bool) → List Val
  | [], _, _ => []
  | _ :: _, [], _ => []
  | c :: cs, v :: vs, p => if p c then v :: projectRow cs vs p else projectRow cs vs p

/-- Restrict a table to the columns satisfying `p` (the key is kept). -/
def Table.restrict (t : Table) (p : String → Bool) : Table :=
  ⟨t.cols.filter p, t.rows.map (fun r => (r.1, projectRow t.cols r.2 p))⟩

/-- `df.merge(src, on='Suburb', how='left')`: every left row is kept; its
cells are extended by the matching right row's cells, or by NaNs when the
key has no match on the right.  Duplicate right keys multiply rows, as in
pandas. -/
def mergeLeft (l r : Table) : Table :=
  ⟨l.cols ++ r.cols,
   l.rows.flatMap (fun a =>
     match r.rows.filter (fun b => b.1 == a.1) with
     | [] => [(a.1, a.2 ++ List.replicate r.cols.length none)]
     | ms => ms.map (fun b => (a.1, a.2 ++ b.2)))⟩

/-- One optional-source merge step of `load_data`: an empty source is
skipped (`if not src.empty`), otherwise only the columns not already in
`df` are selected (`[c for c in src.columns if c not in df.columns or
c == 'Suburb']`) and left-merged on `Suburb`. -/
def step (df src : Table) : Table :=
  if src.rows.isEmpty then df
  else mergeLeft df (src.restrict (fun c => !(df.cols.contains c)))

/-- The merge pipeline: fold the optional sources, in canonical order,
onto the master table. -/
def loadMerge (m : Table) (srcs : List Table) : Table := srcs.foldl step m

/-- `np.where(df['G01_Population_Total'] > 0,
df['Total_Crime_Count'] / df['G01_Population_Total'] * 1000, 0)`:
NaN population compares `False` to `0`, so NaN or nonpositive population
yields the sentinel `0`; a positive population divides, propagating a NaN
numerator. -/
def deriveCrimeRate (count pop : Val) : Val :=
  match pop with
  | some p =>
      if 0 < p then
        match count with
        | some c => some (c / p * 1000)
        | none => none
      else some 0
  | none => some 0

/-- The derived crime-rate step of `load_data`: only when
`Crime_Rate_Per_1000` is absent after all merges and both dependency
columns are present is the column computed and appended. -/
def addDerivedCrime (df : Table) : Table :=
  if df.cols.contains "Crime_Rate_Per_1000" then df
  else if df.cols.contains "Total_Crime_Count" && df.cols.contains "G01_Population_Total" then
    ⟨df.cols ++ ["Crime_Rate_Per_1000"],
     df.rows.map (fun r =>
       (r.1, r.2 ++ [deriveCrimeRate (rowLookup df.cols r.2 "Total_Crime_Count")
                       (rowLookup df.cols r.2 "G01_Population_Total")]))⟩
  else df

/-- `load_data`: fails only when the master dataset is missing; otherwise
merges the five optional sources in canonical order and derives the crime
rate. -/
def load_data (master : Option Table) (preds risk rental cultural crime : Table) :
    Option Table :=
  master.map (fun m => addDerivedCrime (loadMerge m [preds, risk, rental, cultural, crime]))

/-- A raw CSV file: a header and rows of cells. -/
structure Csv where
  header : List String
  rows : List (List Val)
deriving DecidableEq, Repr

/-- The empty CSV (`pd.DataFrame()`). -/
def Csv.empty : Csv := ⟨[], []⟩

/-- `_safe_read_csv`: a missing file gives an empty frame; with `usecols`,
the requested columns are intersected with the header (in header order)
and an empty intersection gives an empty frame. -/
def safeReadCsv (file : Option Csv) (usecols : Option (List String)) : Csv :=
  match file with
  | none => Csv.empty
  | some t =>
    match usecols with
    | none => t
    | some req =>
      let valid := t.header.filter (fun c => req.contains c)
      if valid.isEmpty then Csv.empty
      else ⟨valid, t.rows.map (fun r => projectRow t.header r (fun c => req.contains c))⟩

/-- The cells contributed by the right table of a left join for key `k`:
the matching row's cells, or one NaN per right column when unmatched. -/
def rightCells (r : Table) (k : String) : List Val :=
  match r.rows.find? (fun b => b.1 == k) with
  | some b => b.2
  | none => List.replicate r.cols.length none

theorem filter_key_eq_find (k : String) :
    ∀ rows : List (String × List Val), (rows.map Prod.fst).Nodup →
      rows.filter (fun b => b.1 == k) = (rows.find? (fun b => b.1 == k)).toList := by
  intro rows h
  induction rows with
  | nil => simp
  | cons a as ih =>
    simp only [List.map_cons, List.nodup_cons] at h
    by_cases hk : a.1 == k
    · have hak : a.1 = k := by simpa using hk
      simp only [List.filter_cons, List.find?_cons, hk, if_pos, Option.toList_some]
      have : as.filter (fun b => b.1 == k) = [] := by
        apply List.filter_eq_nil_iff.mpr
        intro b hb
        have : b.1 ∈ as.map Prod.fst := List.mem_map_of_mem _ hb
        simp only [beq_iff_eq]
        intro hbk
        apply h.1
        rw [hak, ← hbk]
        exact this
      simp [this]
    · simp [List.filter_cons, List.find?_cons, hk, ih h.2]

theorem mergeLeft_rows_of_nodup (l r : Table) (h : r.keys.Nodup) :
    (mergeLeft l r).rows = l.rows.map (fun a => (a.1, a.2 ++ rightCells r a.1)) := by
  have key : ∀ rows : List (String × List Val),
      rows.flatMap (fun a =>
        match r.rows.filter (fun b => b.1 == a.1) with
        | [] => [(a.1, a.2 ++ List.replicate r.cols.length none)]
        | ms => ms.map (fun b => (a.1, a.2 ++ b.2))) =
      rows.map (fun a => (a.1, a.2 ++ rightCells r a.1)) := by
    intro rows
    induction rows with
    | nil => rfl
    | cons a as ih =>
      rw [List.flatMap_cons, List.map_cons, ih]
      rw [filter_key_eq_find a.1 r.rows h]
      unfold rightCells
      cases r.rows.find? (fun b => b.1 == a.1) <;> simp
  exact key l.rows

theorem mergeLeft_keys_of_nodup (l r : Table) (h : r.keys.Nodup) :
    (mergeLeft l r).keys = l.keys := by
  unfold Table.keys
  rw [mergeLeft_rows_of_nodup l r h, List.map_map]
  rfl

theorem restrict_keys (t : Table) (p : String → Bool) :
    (t.restrict p).keys = t.keys := by
  unfold Table.keys Table.restrict
  rw [List.map_map]
  rfl

theorem step_keys (df src : Table) (h : src.keys.Nodup) :
    (step df src).keys = df.keys := by
  unfold step
  by_cases he : src.rows.isEmpty
  · simp [he]
  · have hr : (src.restrict (fun c => !(df.cols.contains c))).keys.Nodup := by
      rw [restrict_keys]; exact h
    simp only [he, if_neg, Bool.false_eq_true, not_false_eq_true]
    exact mergeLeft_keys_of_nodup _ _ hr

theorem loadMerge_keys (m : Table) :
    ∀ srcs : List Table, (∀ t ∈ srcs, t.keys.Nodup) →
      (loadMerge m srcs).keys = m.keys := by
  intro srcs
  induction srcs generalizing m with
  | nil => intro _; rfl
  | cons s ss ih =>
    intro h
    have h1 : s.keys.Nodup := h s (List.mem_cons_self s ss)
    have h2 : ∀ t ∈ ss, t.keys.Nodup := fun t ht => h t (List.mem_cons_of_mem s ht)
    show (loadMerge (step m s) ss).keys = m.keys
    rw [ih (step m s) h2, step_keys m s h1]

theorem addDerivedCrime_keys (df : Table) : (addDerivedCrime df).keys = df.keys := by
  unfold addDerivedCrime
  by_cases h1 : "Crime_Rate_Per_1000" ∈ df.cols
  · simp [h1]
  · by_cases h2 : "Total_Crime_Count" ∈ df.cols ∧ "G01_Population_Total" ∈ df.cols
    · simp [h1, h2, Table.keys, List.map_map, Function.comp]
    · simp [h1, h2, Table.keys]

/-- **C1**: for the sequence of optional-source merges performed by
`load_data` (predictions, risk, rental, cultural, crime-offense onto the
master table), provided the region key is unique within each optional
source, the key list of the merged table equals the master's key list; in
particular the number of distinct region keys equals the count in the
master source alone — merging never adds or removes keys. -/
theorem load_data_keyset_invariant
    (m preds risk rental cultural crime : Table)
    (hp : preds.keys.Nodup) (hr : risk.keys.Nodup) (hre : rental.keys.Nodup)
    (hcu : cultural.keys.Nodup) (hcr : crime.keys.Nodup) :
    ∀ t, load_data (some m) preds risk rental cultural crime = some t →
      t.keys = m.keys ∧ t.keys.dedup.length = m.keys.dedup.length := by
  intro t ht
  have hteq : t = addDerivedCrime (loadMerge m [preds, risk, rental, cultural, crime]) := by
    have := ht.symm
    simpa [load_data] using this
  subst hteq
  have hall : ∀ s ∈ [preds, risk, rental, cultural, crime], s.keys.Nodup := by
    intro s hs
    simp only [List.mem_cons, List.not_mem_nil, or_false] at hs
    rcases hs with h | h | h | h | h <;> subst h <;> assumption
  rw [addDerivedCrime_keys, loadMerge_keys m _ hall]
  exact ⟨rfl, rfl⟩

/-- Witness for C1 at a concrete master table and concrete (empty and
nonempty) optional sources. -/
theorem load_data_keyset_invariant_witness :
    (addDerivedCrime (loadMerge ⟨["Current_Price_2025"], [("Alberton", [some 500000]), ("Glenelg", [some 900000])]⟩
        [⟨["Forecast_Price_2026"], [("Alberton", [some 520000])]⟩, Table.empty, Table.empty, Table.empty, Table.empty])).keys =
      (⟨["Current_Price_2025"], [("Alberton", [some 500000]), ("Glenelg", [some 900000])]⟩ : Table).keys ∧
    (addDerivedCrime (loadMerge ⟨["Current_Price_2025"], [("Alberton", [some 500000]), ("Glenelg", [some 900000])]⟩
        [⟨["Forecast_Price_2026"], [("Alberton", [some 520000])]⟩, Table.empty, Table.empty, Table.empty, Table.empty])).keys.dedup.length =
      (⟨["Current_Price_2025"], [("Alberton", [some 500000]), ("Glenelg", [some 900000])]⟩ : Table).keys.dedup.length :=
  load_data_keyset_invariant
    ⟨["Current_Price_2025"], [("Alberton", [some 500000]), ("Glenelg", [some 900000])]⟩
    ⟨["Forecast_Price_2026"], [("Alberton", [some 520000])]⟩
    Table.empty Table.empty Table.empty Table.empty
    (by decide) (by decide) (by decide) (by decide) (by decide)
    _ rfl

theorem rowLookup_nil_cells (cs : List String) (c : String) :
    rowLookup cs [] c = none := by
  cases cs <;> rfl

theorem rowLookup_not_mem (c : String) :
    ∀ (cs : List String) (vs : List Val), c ∉ cs → rowLookup cs vs c = none := by
  intro cs
  induction cs with
  | nil => intro vs _; rfl
  | cons c' cs' ih =>
    intro vs h
    cases vs with
    | nil => rfl
    | cons v vs' =>
      have hne : (c' == c) = false := by
        simp only [beq_eq_false_iff_ne, ne_eq]
        intro he
        exact h (he ▸ List.mem_cons_self c' cs')
      simp only [rowLookup, hne, Bool.false_eq_true, if_neg, not_false_eq_true]
      exact ih vs' (fun hm => h (List.mem_cons_of_mem c' hm))

theorem rowLookup_append_of_mem (c : String) :
    ∀ (cs : List String) (vs : List Val) (ds : List String) (ws : List Val),
      c ∈ cs → cs.length = vs.length →
      rowLookup (cs ++ ds) (vs ++ ws) c = rowLookup cs vs c := by
  intro cs
  induction cs with
  | nil => intro vs ds ws h _; exact absurd h (List.not_mem_nil c)
  | cons c' cs' ih =>
    intro vs ds ws h hlen
    cases vs with
    | nil => simp at hlen
    | cons v vs' =>
      by_cases he : c' == c
      · simp [rowLookup, he]
      · have hc : c ∈ cs' := by
          rcases List.mem_cons.mp h with h1 | h1
          · exact absurd (by simp [h1]) he
          · exact h1
        simp only [List.cons_append, rowLookup, he, Bool.false_eq_true, if_neg,
          not_false_eq_true]
        exact ih vs' ds ws hc (by simpa using hlen)

theorem rowLookup_append_of_not_mem (c : String) :
    ∀ (cs : List String) (vs : List Val) (ds : List String) (ws : List Val),
      c ∉ cs → cs.length = vs.length →
      rowLookup (cs ++ ds) (vs ++ ws) c = rowLookup ds ws c := by
  intro cs
  induction cs with
  | nil =>
    intro vs ds ws _ hlen
    have : vs = [] := List.length_eq_zero.mp hlen.symm
    simp [this]
  | cons c' cs' ih =>
    intro vs ds ws h hlen
    cases vs with
    | nil => simp at hlen
    | cons v vs' =>
      have hne : (c' == c) = false := by
        simp only [beq_eq_false_iff_ne, ne_eq]
        intro he
        exact h (he ▸ List.mem_cons_self c' cs')
      simp only [List.cons_append, rowLookup, hne, Bool.false_eq_true, if_neg,
        not_false_eq_true]
      exact ih vs' ds ws (fun hm => h (List.mem_cons_of_mem c' hm)) (by simpa using hlen)

theorem rowLookup_replicate_none (c : String) :
    ∀ (cs : List String) (n : ℕ), rowLookup cs (List.replicate n none) c = none := by
  intro cs
  induction cs with
  | nil => intro n; rfl
  | cons c' cs' ih =>
    intro n
    cases n with
    | zero => rfl
    | succ m =>
      simp only [List.replicate_succ, rowLookup]
      by_cases he : c' == c <;> simp [he, ih m]

theorem projectRow_length (p : String → Bool) :
    ∀ (cs : List String) (vs : List Val), cs.length = vs.length →
      (projectRow cs vs p).length = (cs.filter p).length := by
  intro cs
  induction cs with
  | nil => intro vs _; rfl
  | cons c' cs' ih =>
    intro vs hlen
    cases vs with
    | nil => simp at hlen
    | cons v vs' =>
      by_cases hp : p c'
      · simp only [projectRow, hp, if_pos, List.filter_cons_of_pos, List.length_cons]
        exact congrArg Nat.succ (ih vs' (by simpa using hlen))
      · simp only [projectRow, hp, Bool.false_eq_true, if_neg, not_false_eq_true,
          List.filter_cons_of_neg]
        exact ih vs' (by simpa using hlen)

theorem rowLookup_projectRow (p : String → Bool) (c : String) (hp : p c = true) :
    ∀ (cs : List String) (vs : List Val),
      rowLookup (cs.filter p) (projectRow cs vs p) c = rowLookup cs vs c := by
  intro cs
  induction cs with
  | nil => intro vs; rfl
  | cons c' cs' ih =>
    intro vs
    cases vs with
    | nil =>
      rw [rowLookup_nil_cells]
      show rowLookup _ (projectRow (c' :: cs') [] p) c = none
      have : projectRow (c' :: cs') [] p = [] := rfl
      rw [this, rowLookup_nil_cells]
    | cons v vs' =>
      by_cases hpc : p c'
      · simp only [projectRow, hpc, if_pos, List.filter_cons_of_pos, rowLookup]
        by_cases he : c' == c <;> simp [he, ih vs']
      · have hne : (c' == c) = false := by
          simp only [beq_eq_false_iff_ne, ne_eq]
          intro he
          rw [he] at hpc
          exact hpc hp
        simp only [projectRow, hpc, Bool.false_eq_true, if_neg, not_false_eq_true,
          List.filter_cons_of_neg, rowLookup, hne]
        exact ih vs'

theorem restrict_WF (t : Table) (p : String → Bool) (h : t.WF) : (t.restrict p).WF := by
  intro r hr
  simp only [Table.restrict, List.mem_map] at hr
  obtain ⟨a, ha, rfl⟩ := hr
  exact projectRow_length p t.cols a.2 (h a ha).symm

theorem mergeLeft_WF (l r : Table) (hl : l.WF) (hr : r.WF) : (mergeLeft l r).WF := by
  intro x hx
  simp only [mergeLeft, List.mem_flatMap] at hx
  obtain ⟨a, ha, hx⟩ := hx
  show x.2.length = (l.cols ++ r.cols).length
  rw [List.length_append]
  cases hfil : r.rows.filter (fun b => b.1 == a.1) with
  | nil =>
    rw [hfil] at hx
    simp only [List.mem_singleton] at hx
    subst hx
    simp [hl a ha]
  | cons b bs =>
    rw [hfil] at hx
    simp only [List.mem_map] at hx
    obtain ⟨b', hb', rfl⟩ := hx
    have hbr : b' ∈ r.rows := by
      have : b' ∈ r.rows.filter (fun b => b.1 == a.1) := hfil ▸ hb'
      exact List.mem_of_mem_filter this
    simp [hl a ha, hr b' hbr]

theorem step_WF (df src : Table) (hdf : df.WF) (hsrc : src.WF) : (step df src).WF := by
  unfold step
  by_cases he : src.rows.isEmpty
  · simpa [he]
  · simp only [he, Bool.false_eq_true, if_neg, not_false_eq_true]
    exact mergeLeft_WF _ _ hdf (restrict_WF src _ hsrc)

theorem loadMerge_WF (srcs : List Table) :
    ∀ m : Table, m.WF → (∀ s ∈ srcs, s.WF) → (loadMerge m srcs).WF := by
  induction srcs with
  | nil => intro m hm _; exact hm
  | cons s ss ih =>
    intro m hm hall
    show (loadMerge (step m s) ss).WF
    exact ih (step m s) (step_WF m s hm (hall s (List.mem_cons_self s ss)))
      (fun t ht => hall t (List.mem_cons_of_mem s ht))

theorem find?_map_keep (g : (String × List Val) → List Val) (k : String) :
    ∀ rows : List (String × List Val),
      (rows.map (fun a => (a.1, g a))).find? (fun r => r.1 == k) =
        (rows.find? (fun r => r.1 == k)).map (fun a => (a.1, g a)) := by
  intro rows
  induction rows with
  | nil => rfl
  | cons a as ih =>
    by_cases hk : a.1 == k
    · simp [List.find?_cons, hk]
    · simp only [List.map_cons, List.find?_cons, hk]
      simpa [hk] using ih

theorem find?_key_isSome_iff (k : String) (rows : List (String × List Val)) :
    (rows.find? (fun r => r.1 == k)).isSome ↔ k ∈ rows.map Prod.fst := by
  rw [List.find?_isSome]
  constructor
  · rintro ⟨x, hx, hpx⟩
    exact List.mem_map.mpr ⟨x, hx, by simpa using hpx⟩
  · rintro h
    obtain ⟨x, hx, hxk⟩ := List.mem_map.mp h
    exact ⟨x, hx, by simp [hxk]⟩

theorem cellVal_mergeLeft (df sel : Table) (hnd : sel.keys.Nodup) (k c : String) :
    (mergeLeft df sel).cellVal k c =
      match df.rows.find? (fun r => r.1 == k) with
      | some a => rowLookup (df.cols ++ sel.cols) (a.2 ++ rightCells sel a.1) c
      | none => none := by
  unfold Table.cellVal
  rw [show (mergeLeft df sel).rows = _ from mergeLeft_rows_of_nodup df sel hnd,
    find?_map_keep]
  cases df.rows.find? (fun r => r.1 == k) <;> rfl

theorem cellVal_none_of_not_mem_cols (t : Table) (k c : String) (h : c ∉ t.cols) :
    t.cellVal k c = none := by
  unfold Table.cellVal
  cases t.rows.find? (fun r => r.1 == k) with
  | none => rfl
  | some a => exact rowLookup_not_mem c t.cols a.2 h

theorem step_cellVal_of_mem (df src : Table) (k c : String)
    (hc : c ∈ df.cols) (hwf : df.WF) (hnd : src.keys.Nodup) :
    (step df src).cellVal k c = df.cellVal k c := by
  unfold step
  by_cases he : src.rows.isEmpty
  · simp [he]
  · simp only [he, Bool.false_eq_true, if_neg, not_false_eq_true]
    have hnd' : (src.restrict (fun x => !(df.cols.contains x))).keys.Nodup := by
      rw [restrict_keys]; exact hnd
    rw [cellVal_mergeLeft _ _ hnd']
    unfold Table.cellVal
    cases hfind : df.rows.find? (fun r => r.1 == k) with
    | none => rfl
    | some a =>
      have ha : a ∈ df.rows := List.mem_of_find?_eq_some hfind
      exact rowLookup_append_of_mem c df.cols a.2 _ _ hc (hwf a ha).symm

theorem step_cellVal_new (df src : Table) (k c : String)
    (hc : c ∉ df.cols) (hwf : df.WF) (hnd : src.keys.Nodup)
    (hk : (df.rows.find? (fun r => r.1 == k)).isSome) :
    (step df src).cellVal k c = src.cellVal k c := by
  unfold step
  by_cases he : src.rows.isEmpty
  · have hsrc : src.rows = [] := by simpa using he
    simp only [he, if_pos]
    rw [cellVal_none_of_not_mem_cols df k c hc]
    unfold Table.cellVal
    rw [hsrc]
    rfl
  · simp only [he, Bool.false_eq_true, if_neg, not_false_eq_true]
    have hp : (fun x => !(df.cols.contains x)) c = true := by
      simp [hc]
    have hnd' : (src.restrict (fun x => !(df.cols.contains x))).keys.Nodup := by
      rw [restrict_keys]; exact hnd
    rw [cellVal_mergeLeft _ _ hnd']
    cases hfind : df.rows.find? (fun r => r.1 == k) with
    | none => rw [hfind] at hk; simp at hk
    | some a =>
      have ha : a ∈ df.rows := List.mem_of_find?_eq_some hfind
      have hak : a.1 = k := by
        have := List.find?_some hfind
        simpa using this
      show rowLookup (df.cols ++ (src.restrict fun x => !df.cols.contains x).cols)
          (a.2 ++ rightCells (src.restrict fun x => !df.cols.contains x) a.1) c =
        src.cellVal k c
      rw [rowLookup_append_of_not_mem c df.cols a.2 _ _ hc (hwf a ha).symm]
      unfold rightCells
      show rowLookup _ _ c = src.cellVal k c
      have hrows : (src.restrict (fun x => !(df.cols.contains x))).rows =
          src.rows.map (fun r => (r.1, projectRow src.cols r.2 (fun x => !(df.cols.contains x)))) := rfl
      rw [hrows, find?_map_keep]
      unfold Table.cellVal
      rw [hak]
      cases hfind2 : src.rows.find? (fun r => r.1 == k) with
      | none =>
        simp only [Option.map_none]
        exact rowLookup_replicate_none c _ _
      | some b =>
        simp only [Option.map_some]
        exact rowLookup_projectRow _ c hp src.cols b.2

theorem step_cols_subset (df src : Table) (c' : String) (h : c' ∈ (step df src).cols) :
    c' ∈ df.cols ∨ c' ∈ src.cols := by
  unfold step at h
  by_cases he : src.rows.isEmpty
  · rw [if_pos he] at h
    exact Or.inl h
  · rw [if_neg (by simpa using he)] at h
    rcases List.mem_append.mp h with h1 | h1
    · exact Or.inl h1
    · exact Or.inr (List.mem_of_mem_filter h1)

theorem mem_step_cols_of_mem (df src : Table) (c' : String) (h : c' ∈ df.cols) :
    c' ∈ (step df src).cols := by
  unfold step
  by_cases he : src.rows.isEmpty
  · rwa [if_pos he]
  · rw [if_neg (by simpa using he)]
    exact List.mem_append.mpr (Or.inl h)

theorem mem_loadMerge_cols_of_mem (srcs : List Table) :
    ∀ (df : Table) (c' : String), c' ∈ df.cols → c' ∈ (loadMerge df srcs).cols := by
  induction srcs with
  | nil => intro df c' h; exact h
  | cons s ss ih =>
    intro df c' h
    exact ih (step df s) c' (mem_step_cols_of_mem df s c' h)

theorem loadMerge_cols_provenance (srcs : List Table) :
    ∀ (df : Table) (c' : String), c' ∈ (loadMerge df srcs).cols →
      c' ∈ df.cols ∨ ∃ s ∈ srcs, c' ∈ s.cols := by
  induction srcs with
  | nil => intro df c' h; exact Or.inl h
  | cons s ss ih =>
    intro df c' h
    rcases ih (step df s) c' h with h1 | h1
    · rcases step_cols_subset df s c' h1 with h2 | h2
      · exact Or.inl h2
      · exact Or.inr ⟨s, List.mem_cons_self s ss, h2⟩
    · obtain ⟨u, hu, hcu⟩ := h1
      exact Or.inr ⟨u, List.mem_cons_of_mem s hu, hcu⟩

theorem not_mem_loadMerge_cols (srcs : List Table) (df : Table) (c : String)
    (h1 : c ∉ df.cols) (h2 : ∀ s ∈ srcs, c ∉ s.cols) :
    c ∉ (loadMerge df srcs).cols := by
  intro hmem
  rcases loadMerge_cols_provenance srcs df c hmem with h | ⟨s, hs, hcs⟩
  · exact h1 h
  · exact h2 s hs hcs

theorem loadMerge_cellVal_of_mem (srcs : List Table) :
    ∀ (df : Table) (k c : String), c ∈ df.cols → df.WF →
      (∀ s ∈ srcs, s.keys.Nodup ∧ s.WF) →
      (loadMerge df srcs).cellVal k c = df.cellVal k c := by
  induction srcs with
  | nil => intro df k c _ _ _; rfl
  | cons s ss ih =>
    intro df k c hc hwf hall
    have hs := hall s (List.mem_cons_self s ss)
    have hss : ∀ u ∈ ss, u.keys.Nodup ∧ u.WF :=
      fun u hu => hall u (List.mem_cons_of_mem s hu)
    show (loadMerge (step df s) ss).cellVal k c = df.cellVal k c
    rw [ih (step df s) k c (mem_step_cols_of_mem df s c hc) (step_WF df s hwf hs.2) hss]
    exact step_cellVal_of_mem df s k c hc hwf hs.1

theorem addDerivedCrime_cellVal_of_mem (df : Table) (k c : String)
    (hc : c ∈ df.cols) (hwf : df.WF) :
    (addDerivedCrime df).cellVal k c = df.cellVal k c := by
  unfold addDerivedCrime
  by_cases h1 : df.cols.contains "Crime_Rate_Per_1000"
  · rw [if_pos h1]
  · rw [if_neg h1]
    by_cases h2 : df.cols.contains "Total_Crime_Count" && df.cols.contains "G01_Population_Total"
    · rw [if_pos h2]
      unfold Table.cellVal
      rw [show (⟨df.cols ++ ["Crime_Rate_Per_1000"],
            df.rows.map (fun r =>
              (r.1, r.2 ++ [deriveCrimeRate (rowLookup df.cols r.2 "Total_Crime_Count")
                (rowLookup df.cols r.2 "G01_Population_Total")]))⟩ : Table).rows = _ from rfl,
        find?_map_keep]
      cases hfind : df.rows.find? (fun r => r.1 == k) with
      | none => rfl
      | some a =>
        have ha : a ∈ df.rows := List.mem_of_find?_eq_some hfind
        show rowLookup (df.cols ++ ["Crime_Rate_Per_1000"]) (a.2 ++ _) c = rowLookup df.cols a.2 c
        exact rowLookup_append_of_mem c df.cols a.2 _ _ hc (hwf a ha).symm
    · rw [if_neg h2]

theorem addDerivedCrime_cols_provenance (df : Table) (c' : String)
    (h : c' ∈ (addDerivedCrime df).cols) :
    c' ∈ df.cols ∨ c' = "Crime_Rate_Per_1000" := by
  unfold addDerivedCrime at h
  by_cases h1 : df.cols.contains "Crime_Rate_Per_1000"
  · rw [if_pos h1] at h
    exact Or.inl h
  · rw [if_neg h1] at h
    by_cases h2 : df.cols.contains "Total_Crime_Count" && df.cols.contains "G01_Population_Total"
    · rw [if_pos h2] at h
      rcases List.mem_append.mp h with h3 | h3
      · exact Or.inl h3
      · exact Or.inr (by simpa using h3)
    · rw [if_neg h2] at h
      exact Or.inl h

theorem mem_step_cols_new (df A : Table) (c : String)
    (hcA : c ∈ A.cols) (hAne : A.rows ≠ []) (hcdf : c ∉ df.cols) :
    c ∈ (step df A).cols := by
  unfold step
  rw [if_neg (by simpa using hAne)]
  apply List.mem_append.mpr
  right
  exact List.mem_filter.mpr ⟨hcA, by simp [hcdf]⟩

theorem loadMerge_append_middle (pre : List Table) (A : Table) (post : List Table)
    (df : Table) :
    loadMerge df (pre ++ A :: post) = loadMerge (step (loadMerge df pre) A) post := by
  unfold loadMerge
  rw [List.foldl_append]
  rfl

theorem loadMerge_first_wins (pre : List Table) (A : Table) (post : List Table)
    (df : Table) (k c : String)
    (hcdf : c ∉ df.cols) (hcpre : ∀ s ∈ pre, c ∉ s.cols)
    (hwf : df.WF) (hpre : ∀ s ∈ pre, s.keys.Nodup ∧ s.WF)
    (hA : A.keys.Nodup ∧ A.WF) (hcA : c ∈ A.cols) (hAne : A.rows ≠ [])
    (hpost : ∀ s ∈ post, s.keys.Nodup ∧ s.WF)
    (hk : k ∈ df.keys) :
    (loadMerge df (pre ++ A :: post)).cellVal k c = A.cellVal k c := by
  have hdf' : (loadMerge df pre).WF := loadMerge_WF pre df hwf (fun s hs => (hpre s hs).2)
  have hc' : c ∉ (loadMerge df pre).cols := not_mem_loadMerge_cols pre df c hcdf hcpre
  have hkeys : (loadMerge df pre).keys = df.keys :=
    loadMerge_keys df pre (fun s hs => (hpre s hs).1)
  have hk' : ((loadMerge df pre).rows.find? (fun r => r.1 == k)).isSome := by
    rw [find?_key_isSome_iff]
    show k ∈ (loadMerge df pre).keys
    rw [hkeys]
    exact hk
  rw [loadMerge_append_middle]
  have hstepcols : c ∈ (step (loadMerge df pre) A).cols := mem_step_cols_new _ A c hcA hAne hc'
  have hstepWF : (step (loadMerge df pre) A).WF := step_WF _ _ hdf' hA.2
  rw [loadMerge_cellVal_of_mem post _ k c hstepcols hstepWF hpost]
  exact step_cellVal_new _ A k c hc' hdf' hA.1 hk'

/-- **C2**: first-seen field wins.  If a field name `c` is defined by a
source of `load_data` and by a later source, the merged value of `c` for
any master key equals the value held by whichever source carries `c`
first in canonical order (master, then predictions, risk, rental,
cultural, crime-offense): `A` below is that first carrier — either the
master, or an optional source none of whose predecessors carries `c`.
Later same-named columns are discarded, never overwrite, and are never
renamed: every merged column name comes verbatim from one of the sources
(or is the derived `Crime_Rate_Per_1000`). -/
theorem load_data_first_seen_wins
    (m preds risk rental cultural crime : Table) (k c : String) (A : Table)
    (hnd : ∀ s ∈ [preds, risk, rental, cultural, crime], s.keys.Nodup)
    (hwfm : m.WF) (hwfs : ∀ s ∈ [preds, risk, rental, cultural, crime], s.WF)
    (hA : (A = m ∧ c ∈ m.cols) ∨
      ∃ pre post, pre ++ A :: post = [preds, risk, rental, cultural, crime] ∧
        c ∉ m.cols ∧ (∀ s ∈ pre, c ∉ s.cols) ∧ c ∈ A.cols ∧ A.rows ≠ [])
    (hk : k ∈ m.keys) :
    ∀ t, load_data (some m) preds risk rental cultural crime = some t →
      t.cellVal k c = A.cellVal k c ∧
      ∀ c' ∈ t.cols, c' ∈ m.cols ∨
        (∃ s ∈ [preds, risk, rental, cultural, crime], c' ∈ s.cols) ∨
        c' = "Crime_Rate_Per_1000" := by
  intro t ht
  have hteq : t = addDerivedCrime (loadMerge m [preds, risk, rental, cultural, crime]) := by
    have := ht.symm
    simpa [load_data] using this
  subst hteq
  have hall : ∀ s ∈ [preds, risk, rental, cultural, crime], s.keys.Nodup ∧ s.WF :=
    fun s hs => ⟨hnd s hs, hwfs s hs⟩
  have hLWF : (loadMerge m [preds, risk, rental, cultural, crime]).WF :=
    loadMerge_WF _ m hwfm (fun s hs => (hall s hs).2)
  constructor
  · rcases hA with ⟨rfl, hcm⟩ | ⟨pre, post, hsplit, hcm, hcpre, hcA, hAne⟩
    · rw [addDerivedCrime_cellVal_of_mem _ k c (mem_loadMerge_cols_of_mem _ A c hcm) hLWF]
      exact loadMerge_cellVal_of_mem _ A k c hcm hwfm hall
    · rw [← hsplit] at hall hLWF ⊢
      have hApr : A.keys.Nodup ∧ A.WF :=
        hall A (List.mem_append_right pre (List.mem_cons_self A post))
      have hpre : ∀ s ∈ pre, s.keys.Nodup ∧ s.WF :=
        fun s hs => hall s (List.mem_append_left _ hs)
      have hpost : ∀ s ∈ post, s.keys.Nodup ∧ s.WF :=
        fun s hs => hall s (List.mem_append_right pre (List.mem_cons_of_mem A hs))
      have hc' : c ∉ (loadMerge m pre).cols :=
        not_mem_loadMerge_cols pre m c hcm hcpre
      have hcfin : c ∈ (loadMerge m (pre ++ A :: post)).cols := by
        rw [loadMerge_append_middle]
        exact mem_loadMerge_cols_of_mem post _ c (mem_step_cols_new _ A c hcA hAne hc')
      rw [addDerivedCrime_cellVal_of_mem _ k c hcfin hLWF]
      exact loadMerge_first_wins pre A post m k c hcm hcpre hwfm hpre hApr hcA hAne hpost hk
  · intro c' hcmem
    rcases addDerivedCrime_cols_provenance _ c' hcmem with h | h
    · rcases loadMerge_cols_provenance _ m c' h with h1 | h1
      · exact Or.inl h1
      · exact Or.inr (Or.inl h1)
    · exact Or.inr (Or.inr h)

/-- Witness for C2: predictions and risk both define `Growth_Score` for
`Alberton`; the merged value is the predictions value (7), not risk's. -/
theorem load_data_first_seen_wins_witness :
    (addDerivedCrime (loadMerge ⟨["Median_Price"], [("Alberton", [some 700000])]⟩
        [⟨["Growth_Score"], [("Alberton", [some 7])]⟩,
         ⟨["Growth_Score"], [("Alberton", [some 9])]⟩,
         Table.empty, Table.empty, Table.empty])).cellVal "Alberton" "Growth_Score" =
      (⟨["Growth_Score"], [("Alberton", [some 7])]⟩ : Table).cellVal "Alberton" "Growth_Score" :=
  (load_data_first_seen_wins
    ⟨["Median_Price"], [("Alberton", [some 700000])]⟩
    ⟨["Growth_Score"], [("Alberton", [some 7])]⟩
    ⟨["Growth_Score"], [("Alberton", [some 9])]⟩
    Table.empty Table.empty Table.empty
    "Alberton" "Growth_Score"
    ⟨["Growth_Score"], [("Alberton", [some 7])]⟩
    (by decide)
    (by unfold Table.WF; decide)
    (by intro s hs; fin_cases hs <;> (unfold Table.WF; decide))
    (Or.inr ⟨[], [⟨["Growth_Score"], [("Alberton", [some 9])]⟩, Table.empty, Table.empty, Table.empty],
      rfl, by decide, by decide, by decide, by decide⟩)
    (by decide) _ rfl).1

/-- **C9**: for every row where the crime rate is derived by the pipeline
(`Crime_Rate_Per_1000` absent after all merges, both dependency columns
present), the derived value equals `Total_Crime_Count /
G01_Population_Total * 1000` when the population is positive, and equals
the defined sentinel `0` — not NaN — when the population is `0` or
missing: no NaN escapes the guarded division. -/
theorem crime_rate_division_guard (df : Table) (k : String)
    (h1 : "Crime_Rate_Per_1000" ∉ df.cols)
    (h2 : "Total_Crime_Count" ∈ df.cols) (h3 : "G01_Population_Total" ∈ df.cols)
    (hwf : df.WF) (r : String × List Val)
    (hfind : df.rows.find? (fun x => x.1 == k) = some r) :
    (addDerivedCrime df).cellVal k "Crime_Rate_Per_1000" =
      deriveCrimeRate (rowLookup df.cols r.2 "Total_Crime_Count")
        (rowLookup df.cols r.2 "G01_Population_Total") ∧
    (∀ p : ℚ, rowLookup df.cols r.2 "G01_Population_Total" = some p → 0 < p →
      ∀ cnt : ℚ, rowLookup df.cols r.2 "Total_Crime_Count" = some cnt →
        (addDerivedCrime df).cellVal k "Crime_Rate_Per_1000" = some (cnt / p * 1000)) ∧
    ((rowLookup df.cols r.2 "G01_Population_Total" = none ∨
      rowLookup df.cols r.2 "G01_Population_Total" = some 0) →
        (addDerivedCrime df).cellVal k "Crime_Rate_Per_1000" = some 0) := by
  have hmain : (addDerivedCrime df).cellVal k "Crime_Rate_Per_1000" =
      deriveCrimeRate (rowLookup df.cols r.2 "Total_Crime_Count")
        (rowLookup df.cols r.2 "G01_Population_Total") := by
    unfold addDerivedCrime
    rw [if_neg (by simpa using h1), if_pos (by simp [h2, h3])]
    unfold Table.cellVal
    rw [show (⟨df.cols ++ ["Crime_Rate_Per_1000"],
          df.rows.map (fun x =>
            (x.1, x.2 ++ [deriveCrimeRate (rowLookup df.cols x.2 "Total_Crime_Count")
              (rowLookup df.cols x.2 "G01_Population_Total")]))⟩ : Table).rows = _ from rfl,
      find?_map_keep, hfind]
    have hr : r ∈ df.rows := List.mem_of_find?_eq_some hfind
    show rowLookup (df.cols ++ ["Crime_Rate_Per_1000"]) (r.2 ++ _) "Crime_Rate_Per_1000" = _
    rw [rowLookup_append_of_not_mem _ df.cols r.2 _ _ h1 (hwf r hr).symm]
    rfl
  refine ⟨hmain, ?_, ?_⟩
  · intro p hp hpos cnt hcnt
    rw [hmain, hp, hcnt]
    simp [deriveCrimeRate, hpos]
  · intro hp
    rw [hmain]
    rcases hp with hp | hp <;> rw [hp] <;> simp [deriveCrimeRate]

/-- Witness for C9: a region with 50 offences and population 0 receives
the sentinel crime rate 0, not NaN. -/
theorem crime_rate_division_guard_witness :
    (addDerivedCrime ⟨["Total_Crime_Count", "G01_Population_Total"],
        [("Alberton", [some 50, some 0])]⟩).cellVal "Alberton" "Crime_Rate_Per_1000" =
      some 0 :=
  (crime_rate_division_guard
    ⟨["Total_Crime_Count", "G01_Population_Total"], [("Alberton", [some 50, some 0])]⟩
    "Alberton" (by decide) (by decide) (by decide)
    (by unfold Table.WF; decide)
    ("Alberton", [some 50, some 0]) (by decide)).2.2 (Or.inr (by decide))

/-- **C8**: the load operation fails to produce a table exactly when the
mandatory master dataset is missing; a missing optional file, or a
`usecols` request none of whose columns exist, yields an empty frame
(never an error); and an empty optional source leaves the pipeline table
untouched — its columns are simply absent from the merged schema. -/
theorem load_failure_and_reader_tolerance :
    (∀ preds risk rental cultural crime : Table,
      load_data none preds risk rental cultural crime = none) ∧
    (∀ m preds risk rental cultural crime : Table,
      (load_data (some m) preds risk rental cultural crime).isSome) ∧
    (∀ u, safeReadCsv none u = Csv.empty) ∧
    (∀ (t : Csv) (req : List String),
      t.header.filter (fun c => req.contains c) = [] →
      safeReadCsv (some t) (some req) = Csv.empty) ∧
    (∀ (df : Table) (cs : List String), step df ⟨cs, []⟩ = df) := by
  refine ⟨fun _ _ _ _ _ => rfl, fun _ _ _ _ _ _ => rfl, fun u => ?_, ?_, ?_⟩
  · cases u <;> rfl
  · intro t req h
    simp only [safeReadCsv, h, List.isEmpty_nil, if_true]
  · intro df cs
    simp [step]

/-- Witness for C8: reading a file whose header shares no column with the
request yields the empty frame. -/
theorem load_failure_and_reader_tolerance_witness :
    safeReadCsv (some ⟨["Suburb_Name"], [[some 1]]⟩) (some ["Median_Price"]) = Csv.empty :=
  load_failure_and_reader_tolerance.2.2.2.1 ⟨["Suburb_Name"], [[some 1]]⟩ ["Median_Price"]
    (by decide)

/-- Numeric value of a list of ASCII digit characters. -/
def digitsToNat (cs : List Char) : Nat := cs.foldl (fun n c => 10 * n + (c.toNat - 48)) 0

/-- First occurrence of four consecutive digits (regex `(\d{4})`),
scanning left to right. -/
def year4 : List Char → Option Nat
  | [] => none
  | c :: rest =>
    if c.isDigit && ((rest.take 3).length == 3 && (rest.take 3).all Char.isDigit) then
      some (digitsToNat (c :: rest.take 3))
    else year4 rest

/-- First digit immediately following a literal `Q` (regex `Q(\d)`),
scanning left to right. -/
def quarterDigit : List Char → Option Nat
  | [] => none
  | c :: rest =>
    if c == 'Q' then
      match rest with
      | [] => none
      | d :: _ => if d.isDigit then some (d.toNat - 48) else quarterDigit rest
    else quarterDigit rest

/-- `Period.str.extract(r'(\d{4})')` on one label. -/
def extractYear (s : String) : Option Nat := year4 s.data

/-- `Period.str.extract(r'Q(\d)')` on one label. -/
def extractQuarter (s : String) : Option Nat := quarterDigit s.data

/-- One row of the property timeseries: suburb, free-text period label,
median price (possibly NaN). -/
structure Obs where
  suburb : String
  period : String
  price : Option ℚ
deriving DecidableEq, Repr

/-- The year-parsed rows of `compute_yoy_growth`: keep a row exactly when
its label yields a 4-digit year and its price is present
(`dropna(subset=['_year', 'Median_Price'])`). -/
def parseYearRows (rows : List Obs) : List (Nat × ℚ) :=
  rows.filterMap (fun o =>
    match extractYear o.period, o.price with
    | some y, some p => some (y, p)
    | _, _ => none)

/-- pandas median: middle element of the sorted values, or the mean of
the two middle elements for an even count. -/
def median (l : List ℚ) : ℚ :=
  let s := l.insertionSort (fun a b => a ≤ b)
  if l.length % 2 = 1 then s.getD (l.length / 2) 0
  else (s.getD (l.length / 2 - 1) 0 + s.getD (l.length / 2) 0) / 2

/-- The values of one year group. -/
def yearValues (l : List (Nat × ℚ)) (y : Nat) : List ℚ :=
  l.filterMap (fun r => if r.1 == y then some r.2 else none)

/-- The distinct years, ascending (`groupby` sorts its keys). -/
def yearsSorted (l : List (Nat × ℚ)) : List Nat :=
  ((l.map Prod.fst).dedup).insertionSort (fun a b => a ≤ b)

/-- `groupby('_year')['Median_Price'].median()`, sorted by year. -/
def annualAgg (l : List (Nat × ℚ)) : List (Nat × ℚ) :=
  (yearsSorted l).map (fun y => (y, median (yearValues l y)))

/-- One row of the annual table: year, annual median price, `diff()`
and `pct_change() * 100` (with `inf` replaced by NaN). -/
structure YRow where
  year : Nat
  price : ℚ
  delta : Option ℚ
  pct : Option ℚ
deriving DecidableEq, Repr

/-- The growth columns of every row after the first, threading the
previous year's aggregate. -/
def growthTail (prev : ℚ) : List (Nat × ℚ) → List YRow
  | [] => []
  | (y, p) :: rest =>
      ⟨y, p, some (p - prev), if prev = 0 then none else some ((p - prev) / prev * 100)⟩ ::
        growthTail p rest

/-- `diff()` and `pct_change() * 100` with the first row NaN and the
`replace([inf, -inf], nan)` guard: a zero previous aggregate gives an
undefined percentage, never an infinite one. -/
def addGrowth : List (Nat × ℚ) → List YRow
  | [] => []
  | (y, p) :: rest => ⟨y, p, none, none⟩ :: growthTail p rest

/-- `compute_yoy_growth`: `None` when the suburb has no timeseries rows,
otherwise the annual aggregates (year-parsed rows, grouped by year,
median per year, ascending) with YoY growth columns. -/
def compute_yoy_growth (ts : List Obs) (suburb : String) : Option (List YRow) :=
  let s := ts.filter (fun o => o.suburb == suburb)
  if s.isEmpty then none
  else some (addGrowth (annualAgg (parseYearRows s)))

/-- The chart row parse of `create_price_chart`: a row survives exactly
when its label yields both a 4-digit year and a `Q`-digit. -/
def parseChartRow (o : Obs) : Option (Nat × Nat × Obs) :=
  match extractYear o.period, extractQuarter o.period with
  | some y, some q => some (y, q, o)
  | _, _ => none

/-- `sort_values(['_year', '_qnum'])` comparison: ascending in the
(year, quarter) pair. -/
def chartRel (a b : Nat × Nat × Obs) : Prop :=
  a.1 < b.1 ∨ (a.1 = b.1 ∧ a.2.1 ≤ b.2.1)

instance : DecidableRel chartRel := fun a b => by
  unfold chartRel
  infer_instance

/-- `create_price_chart`'s data preparation: `None` for an absent suburb
or when every label lacks a year token or every label lacks a quarter
token; otherwise the rows with both tokens, annotated and sorted by
(year, quarter). -/
def create_price_chart (ts : List Obs) (suburb : String) : Option (List (Nat × Nat × Obs)) :=
  let s := ts.filter (fun o => o.suburb == suburb)
  if s.isEmpty then none
  else if s.all (fun o => (extractYear o.period).isNone) ||
          s.all (fun o => (extractQuarter o.period).isNone) then none
  else some ((s.filterMap parseChartRow).insertionSort chartRel)

/-- Maximum of a list of rationals. -/
def qmax : List ℚ → Option ℚ
  | [] => none
  | x :: xs => some (xs.foldl max x)

/-- Minimum of a list of rationals. -/
def qmin : List ℚ → Option ℚ
  | [] => none
  | x :: xs => some (xs.foldl min x)

/-- The defined YoY percentages of the annual table
(`annual['YoY_Growth_Pct']` with NaN skipped). -/
def definedPcts (l : List YRow) : List ℚ := l.filterMap (fun r => r.pct)

/-- `annual.loc[annual['YoY_Growth_Pct'].idxmax()]` guarded by
`notna().any()`: the first row attaining the maximal defined
percentage. -/
def bestRow (l : List YRow) : Option YRow :=
  match qmax (definedPcts l) with
  | none => none
  | some m => l.find? (fun r => r.pct == some m)

/-- `idxmin` counterpart of `bestRow`. -/
def worstRow (l : List YRow) : Option YRow :=
  match qmin (definedPcts l) with
  | none => none
  | some m => l.find? (fun r => r.pct == some m)

/-- The CAGR/total-growth block of `render_yoy_tab`: produced only when
`len(annual) >= 2`, `first_price > 0` and `n_years > 0`; CAGR uses real
exponentiation `(last/first) ** (1/n_years)`. -/
noncomputable def cagrSummary (annual : List YRow) : Option (ℝ × ℚ) :=
  match annual with
  | a :: b :: rest =>
    if 0 < a.price ∧ 0 < ((((a :: b :: rest).getLastD a).year : ℤ) - (a.year : ℤ)) then
      some (((((((a :: b :: rest).getLastD a).price / a.price : ℚ) : ℝ) ^
          ((1 : ℝ) / ((((((a :: b :: rest).getLastD a).year : ℤ) - (a.year : ℤ) : ℤ)) : ℝ)) - 1) * 100),
        (((a :: b :: rest).getLastD a).price - a.price) / a.price * 100)
    else none
  | _ => none

/-- The whole Growth Summary section: CAGR, total growth, best and worst
year — rendered only inside the CAGR precondition block. -/
noncomputable def renderGrowthSummary (annual : List YRow) :
    Option ((ℝ × ℚ) × Option YRow × Option YRow) :=
  match cagrSummary annual with
  | none => none
  | some cg => some (cg, bestRow annual, worstRow annual)

theorem growthTail_get_zero (rest : List (Nat × ℚ)) (prev : ℚ) (cur : Nat × ℚ)
    (h : rest.get? 0 = some cur) :
    (growthTail prev rest).get? 0 =
      some ⟨cur.1, cur.2, some (cur.2 - prev),
        if prev = 0 then none else some ((cur.2 - prev) / prev * 100)⟩ := by
  cases rest with
  | nil => simp at h
  | cons a rest' =>
    obtain ⟨y, p⟩ := a
    simp only [List.get?_cons_zero, Option.some.injEq] at h
    subst h
    rfl

theorem growthTail_get_succ :
    ∀ (rest : List (Nat × ℚ)) (prev : ℚ) (i : Nat) (pr cur : Nat × ℚ),
      rest.get? i = some pr → rest.get? (i + 1) = some cur →
      (growthTail prev rest).get? (i + 1) =
        some ⟨cur.1, cur.2, some (cur.2 - pr.2),
          if pr.2 = 0 then none else some ((cur.2 - pr.2) / pr.2 * 100)⟩ := by
  intro rest
  induction rest with
  | nil => intro prev i pr cur h1 _; simp at h1
  | cons a rest' ih =>
    intro prev i pr cur h1 h2
    obtain ⟨y, p⟩ := a
    cases i with
    | zero =>
      simp only [List.get?_cons_zero, Option.some.injEq] at h1
      subst h1
      simp only [List.get?_cons_succ] at h2
      show (growthTail p rest').get? 0 = _
      exact growthTail_get_zero rest' p cur h2
    | succ j =>
      simp only [List.get?_cons_succ] at h1 h2
      show (growthTail p rest').get? (j + 1) = _
      exact ih p j pr cur h1 h2

theorem addGrowth_get_adjacent (l : List (Nat × ℚ)) (i : Nat) (pr cur : Nat × ℚ)
    (h1 : l.get? i = some pr) (h2 : l.get? (i + 1) = some cur) :
    (addGrowth l).get? (i + 1) =
      some ⟨cur.1, cur.2, some (cur.2 - pr.2),
        if pr.2 = 0 then none else some ((cur.2 - pr.2) / pr.2 * 100)⟩ := by
  cases l with
  | nil => simp at h1
  | cons a rest =>
    obtain ⟨y, p⟩ := a
    cases i with
    | zero =>
      simp only [List.get?_cons_zero, Option.some.injEq] at h1
      subst h1
      simp only [List.get?_cons_succ] at h2
      show (growthTail p rest).get? 0 = _
      exact growthTail_get_zero rest p cur h2
    | succ j =>
      simp only [List.get?_cons_succ] at h1 h2
      show (growthTail p rest).get? (j + 1) = _
      exact growthTail_get_succ rest p j pr cur h1 h2

theorem growthTail_map_pairs (prev : ℚ) :
    ∀ l : List (Nat × ℚ), (growthTail prev l).map (fun r => (r.year, r.price)) = l := by
  intro l
  induction l generalizing prev with
  | nil => rfl
  | cons a rest ih =>
    obtain ⟨y, p⟩ := a
    simp only [growthTail, List.map_cons]
    rw [ih p]

theorem addGrowth_map_pairs (l : List (Nat × ℚ)) :
    (addGrowth l).map (fun r => (r.year, r.price)) = l := by
  cases l with
  | nil => rfl
  | cons a rest =>
    obtain ⟨y, p⟩ := a
    simp only [addGrowth, List.map_cons]
    rw [growthTail_map_pairs]

theorem yoy_adjacent_rows (ts : List Obs) (suburb : String) (l : List YRow)
    (hl : compute_yoy_growth ts suburb = some l) (i : Nat) (pr cur : YRow)
    (h1 : l.get? i = some pr) (h2 : l.get? (i + 1) = some cur) :
    cur.delta = some (cur.price - pr.price) ∧
    cur.pct = (if pr.price = 0 then none
               else some ((cur.price - pr.price) / pr.price * 100)) := by
  have hl' : l = addGrowth (annualAgg (parseYearRows (ts.filter (fun o => o.suburb == suburb)))) := by
    unfold compute_yoy_growth at hl
    by_cases he : (ts.filter (fun o => o.suburb == suburb)).isEmpty
    · simp [he] at hl
    · simp only [he, Bool.false_eq_true, if_neg, not_false_eq_true, Option.some.injEq] at hl
      exact hl.symm
  set pl := annualAgg (parseYearRows (ts.filter (fun o => o.suburb == suburb))) with hpl
  have hmap : (addGrowth pl).map (fun r => (r.year, r.price)) = pl := addGrowth_map_pairs pl
  have h1' : (addGrowth pl).get? i = some pr := by rw [← hl']; exact h1
  have h2' : (addGrowth pl).get? (i + 1) = some cur := by rw [← hl']; exact h2
  have hp1 : pl.get? i = some (pr.year, pr.price) := by
    rw [← hmap, List.get?_map, h1']
    rfl
  have hp2 : pl.get? (i + 1) = some (cur.year, cur.price) := by
    rw [← hmap, List.get?_map, h2']
    rfl
  have hrow := addGrowth_get_adjacent pl i (pr.year, pr.price) (cur.year, cur.price) hp1 hp2
  rw [← hl'] at hrow
  rw [h2] at hrow
  have hcur := (Option.some.injEq _ _).mp hrow
  constructor
  · rw [hcur]
  · rw [hcur]

/-- **C6**: for every consecutive pair of annual aggregates in a region's
sequence, the YoY absolute delta is current minus previous and the
percentage delta is `(current − previous) / previous × 100`, except that
a zero previous aggregate makes the percentage undefined (missing), never
infinite. -/
theorem yoy_delta_formula (ts : List Obs) (suburb : String) (l : List YRow)
    (hl : compute_yoy_growth ts suburb = some l) (i : Nat) (pr cur : YRow)
    (h1 : l.get? i = some pr) (h2 : l.get? (i + 1) = some cur) :
    cur.delta = some (cur.price - pr.price) ∧
    (pr.price ≠ 0 → cur.pct = some ((cur.price - pr.price) / pr.price * 100)) ∧
    (pr.price = 0 → cur.pct = none) := by
  obtain ⟨hd, hp⟩ := yoy_adjacent_rows ts suburb l hl i pr cur h1 h2
  refine ⟨hd, ?_, ?_⟩
  · intro hz
    rw [hp, if_neg hz]
  · intro hz
    rw [hp, if_pos hz]

/-- Witness for C6 on a two-year series: 2019 → 2020 with prices 2 → 1
gives delta −1 and percentage −50%. -/
theorem yoy_delta_formula_witness :
    (⟨2020, (1 : ℚ), some (-1), some (-50)⟩ : YRow).delta =
      some ((⟨2020, (1 : ℚ), some (-1), some (-50)⟩ : YRow).price -
        (⟨2019, (2 : ℚ), none, none⟩ : YRow).price) ∧
    (⟨2020, (1 : ℚ), some (-1), some (-50)⟩ : YRow).pct =
      some (((⟨2020, (1 : ℚ), some (-1), some (-50)⟩ : YRow).price -
        (⟨2019, (2 : ℚ), none, none⟩ : YRow).price) /
          (⟨2019, (2 : ℚ), none, none⟩ : YRow).price * 100) :=
  ⟨(yoy_delta_formula [⟨"A", "2019Q1", some 2⟩, ⟨"A", "2020Q1", some 1⟩] "A"
      [⟨2019, 2, none, none⟩, ⟨2020, 1, some (-1), some (-50)⟩]
      (by with_unfolding_all decide) 0 ⟨2019, 2, none, none⟩ ⟨2020, 1, some (-1), some (-50)⟩
      (by decide) (by decide)).1,
   (yoy_delta_formula [⟨"A", "2019Q1", some 2⟩, ⟨"A", "2020Q1", some 1⟩] "A"
      [⟨2019, 2, none, none⟩, ⟨2020, 1, some (-1), some (-50)⟩]
      (by with_unfolding_all decide) 0 ⟨2019, 2, none, none⟩ ⟨2020, 1, some (-1), some (-50)⟩
      (by decide) (by decide)).2.1 (by decide)⟩

/-- Counterexample to **C10** as stated: for the region series −1 (2019)
then 1 (2020), the year-over-year difference is +2 but the percentage
delta computed by `compute_yoy_growth` is −200%: with a negative previous
aggregate `pct_change` inverts the sign. -/
theorem yoy_sign_counterexample :
    compute_yoy_growth [⟨"A", "2019Q1", some (-1)⟩, ⟨"A", "2020Q1", some 1⟩] "A" =
      some [⟨2019, -1, none, none⟩, ⟨2020, 1, some 2, some (-200)⟩] ∧
    (0 : ℚ) < (1 : ℚ) - (-1) ∧ (-200 : ℚ) < 0 :=
  ⟨by with_unfolding_all decide, by norm_num, by norm_num⟩

/-- **C10 (amended)**: for consecutive annual aggregates whose previous
value is positive, the sign of the percentage delta computed by
`compute_yoy_growth` matches the sign of (current − previous). -/
theorem yoy_sign_consistency_pos_prev (ts : List Obs) (suburb : String) (l : List YRow)
    (hl : compute_yoy_growth ts suburb = some l) (i : Nat) (pr cur : YRow)
    (h1 : l.get? i = some pr) (h2 : l.get? (i + 1) = some cur)
    (hpos : 0 < pr.price) (g : ℚ) (hg : cur.pct = some g) :
    (0 < g ↔ 0 < cur.price - pr.price) ∧ (g < 0 ↔ cur.price - pr.price < 0) ∧
    (g = 0 ↔ cur.price - pr.price = 0) := by
  obtain ⟨_, hp⟩ := yoy_adjacent_rows ts suburb l hl i pr cur h1 h2
  rw [hp, if_neg hpos.ne'] at hg
  have hg' : g = (cur.price - pr.price) * (100 / pr.price) := by
    have := (Option.some.injEq _ _).mp hg.symm
    rw [this]
    ring
  have h100p : (0 : ℚ) < 100 / pr.price := by positivity
  subst hg'
  refine ⟨mul_pos_iff_of_pos_right h100p, ?_, ?_⟩
  · constructor
    · intro h
      by_contra hd
      push_neg at hd
      nlinarith
    · intro h
      nlinarith
  · rw [mul_eq_zero]
    simp [h100p.ne']

/-- Witness for the amended C10: prices 2 then 1 give percentage −50,
negative exactly as 1 − 2 is negative. -/
theorem yoy_sign_consistency_pos_prev_witness :
    ((0 : ℚ) < -50 ↔ (0 : ℚ) <
      (⟨2020, (1 : ℚ), some (-1), some (-50)⟩ : YRow).price -
        (⟨2019, (2 : ℚ), none, none⟩ : YRow).price) ∧
    ((-50 : ℚ) < 0 ↔
      (⟨2020, (1 : ℚ), some (-1), some (-50)⟩ : YRow).price -
        (⟨2019, (2 : ℚ), none, none⟩ : YRow).price < 0) ∧
    ((-50 : ℚ) = 0 ↔
      (⟨2020, (1 : ℚ), some (-1), some (-50)⟩ : YRow).price -
        (⟨2019, (2 : ℚ), none, none⟩ : YRow).price = 0) :=
  yoy_sign_consistency_pos_prev [⟨"A", "2019Q1", some 2⟩, ⟨"A", "2020Q1", some 1⟩] "A"
    [⟨2019, 2, none, none⟩, ⟨2020, 1, some (-1), some (-50)⟩]
    (by with_unfolding_all decide) 0 ⟨2019, 2, none, none⟩ ⟨2020, 1, some (-1), some (-50)⟩
    (by decide) (by decide) (by norm_num) (-50) (by decide)

/-- The parsed series in the words of the spec's claim for the annual
aggregate: an observation is kept only when its label yields both a
4-digit year and a quarter digit (and its value is present).  Declared
for comparison with `parseYearRows`, which `compute_yoy_growth` actually
uses. -/
def specParsedRows (rows : List Obs) : List (Nat × ℚ) :=
  rows.filterMap (fun o =>
    match extractYear o.period, extractQuarter o.period, o.price with
    | some y, some _, some p => some (y, p)
    | _, _, _ => none)

/-- Counterexample to **C5** as stated: `compute_yoy_growth` does not
drop observations whose label lacks a quarter digit.  With observations
("Early 2023", 100) and ("2023 Q1", 200) the computed 2023 aggregate is
the median of both values, 150, while the median over the
quarter-filtered series of the claim is 200. -/
theorem annual_aggregate_counterexample :
    compute_yoy_growth [⟨"A", "Early 2023", some 100⟩, ⟨"A", "2023 Q1", some 200⟩] "A" =
      some [⟨2023, 150, none, none⟩] ∧
    median (yearValues
      (specParsedRows [⟨"A", "Early 2023", some 100⟩, ⟨"A", "2023 Q1", some 200⟩]) 2023) = 200 ∧
    (150 : ℚ) ≠ 200 :=
  ⟨by with_unfolding_all decide, by with_unfolding_all decide, by norm_num⟩

/-- **C5 (amended)**: for every region, every annual aggregate computed
by `compute_yoy_growth` is the median of the region's observations whose
label yields a 4-digit year equal to that aggregate's year and whose
value is present (no quarter token is required), there is an aggregate
for exactly the years occurring among those parsed observations, and the
annual sequence is sorted strictly ascending by year. -/
theorem annual_aggregate_formula (ts : List Obs) (suburb : String) (l : List YRow)
    (hl : compute_yoy_growth ts suburb = some l) :
    (∀ r ∈ l, r.price =
      median (yearValues (parseYearRows (ts.filter (fun o => o.suburb == suburb))) r.year)) ∧
    (∀ y : Nat, (∃ r ∈ l, r.year = y) ↔
      (∃ v : ℚ, (y, v) ∈ parseYearRows (ts.filter (fun o => o.suburb == suburb)))) ∧
    l.Pairwise (fun a b => a.year < b.year) := by
  have hl' : l = addGrowth (annualAgg (parseYearRows (ts.filter (fun o => o.suburb == suburb)))) := by
    unfold compute_yoy_growth at hl
    by_cases he : (ts.filter (fun o => o.suburb == suburb)).isEmpty
    · simp [he] at hl
    · simp only [he, Bool.false_eq_true, if_neg, not_false_eq_true, Option.some.injEq] at hl
      exact hl.symm
  set parsed := parseYearRows (ts.filter (fun o => o.suburb == suburb)) with hparsed
  have hmap : l.map (fun r => (r.year, r.price)) = annualAgg parsed := by
    rw [hl']
    exact addGrowth_map_pairs _
  refine ⟨?_, ?_, ?_⟩
  · intro r hr
    have : (r.year, r.price) ∈ annualAgg parsed := by
      rw [← hmap]
      exact List.mem_map_of_mem _ hr
    unfold annualAgg at this
    obtain ⟨y, _, hy⟩ := List.mem_map.mp this
    have h1 : y = r.year := congrArg Prod.fst hy
    have h2 : median (yearValues parsed y) = r.price := congrArg Prod.snd hy
    rw [← h2, h1]
  · intro y
    constructor
    · rintro ⟨r, hr, rfl⟩
      have : (r.year, r.price) ∈ annualAgg parsed := by
        rw [← hmap]
        exact List.mem_map_of_mem _ hr
      unfold annualAgg at this
      obtain ⟨y', hy', hy⟩ := List.mem_map.mp this
      have h1 : y' = r.year := congrArg Prod.fst hy
      subst h1
      unfold yearsSorted at hy'
      rw [List.mem_insertionSort, List.mem_dedup] at hy'
      obtain ⟨x, hx, hxy⟩ := List.mem_map.mp hy'
      exact ⟨x.2, by rwa [show (r.year, x.2) = x from Prod.ext hxy.symm rfl]⟩
    · rintro ⟨v, hv⟩
      have hy : y ∈ yearsSorted parsed := by
        unfold yearsSorted
        rw [List.mem_insertionSort, List.mem_dedup]
        exact List.mem_map.mpr ⟨(y, v), hv, rfl⟩
      have : (y, median (yearValues parsed y)) ∈ annualAgg parsed :=
        List.mem_map_of_mem _ hy
      rw [← hmap] at this
      obtain ⟨r, hr, hry⟩ := List.mem_map.mp this
      exact ⟨r, hr, congrArg Prod.fst hry⟩
  · have hsorted : (yearsSorted parsed).Sorted (fun a b => a ≤ b) :=
      List.sorted_insertionSort _ _
    have hnodup : (yearsSorted parsed).Nodup :=
      ((List.perm_insertionSort _ _).nodup_iff).mpr (List.nodup_dedup _)
    have hlt : (yearsSorted parsed).Sorted (fun a b : Nat => a < b) :=
      hsorted.lt_of_le hnodup
    have h1 : l.map (fun r => r.year) = (l.map (fun r => (r.year, r.price))).map Prod.fst := by
      rw [List.map_map]
      rfl
    have h2 : (annualAgg parsed).map Prod.fst = yearsSorted parsed := by
      unfold annualAgg
      rw [List.map_map]
      rw [show (Prod.fst ∘ fun y => (y, median (yearValues parsed y))) = id from rfl,
        List.map_id]
    have hyears : l.map (fun r => r.year) = yearsSorted parsed := by
      rw [h1, hmap, h2]
    have hfin := hlt
    rw [← hyears] at hfin
    exact List.pairwise_map.mp hfin

instance : IsTotal (Nat × Nat × Obs) chartRel :=
  ⟨by
    intro a b
    unfold chartRel
    rcases Nat.lt_trichotomy a.1 b.1 with h | h | h
    · exact Or.inl (Or.inl h)
    · rcases Nat.le_total a.2.1 b.2.1 with h2 | h2
      · exact Or.inl (Or.inr ⟨h, h2⟩)
      · exact Or.inr (Or.inr ⟨h.symm, h2⟩)
    · exact Or.inr (Or.inl h)⟩

instance : IsTrans (Nat × Nat × Obs) chartRel :=
  ⟨by
    intro a b c hab hbc
    unfold chartRel at hab hbc ⊢
    rcases hab with h | ⟨he, hq⟩ <;> rcases hbc with h' | ⟨he', hq'⟩
    · exact Or.inl (h.trans h')
    · exact Or.inl (he' ▸ h)
    · exact Or.inl (he ▸ h')
    · exact Or.inr ⟨he.trans he', hq.trans hq'⟩⟩

theorem parseChartRow_eq_some (a : Obs) (y q : Nat) (o : Obs)
    (h : parseChartRow a = some (y, q, o)) :
    a = o ∧ extractYear o.period = some y ∧ extractQuarter o.period = some q := by
  unfold parseChartRow at h
  cases hy : extractYear a.period with
  | none => rw [hy] at h; simp at h
  | some y' =>
    cases hq : extractQuarter a.period with
    | none => rw [hy, hq] at h; simp at h
    | some q' =>
      rw [hy, hq] at h
      simp only [Option.some.injEq, Prod.mk.injEq] at h
      obtain ⟨h1, h2, h3⟩ := h
      subst h1 h2 h3
      exact ⟨rfl, hy, hq⟩

/-- **C4**: a row of a region's series appears in the chart series
prepared by `create_price_chart` exactly when its period label yields a
4-digit year and a digit immediately after a literal `Q`; retained rows
are annotated with that (year, quarter) and sorted ascending by
(year, quarter); and when no chart is produced, no row of the region's
series carries both tokens. -/
theorem chart_parse_and_sort (ts : List Obs) (suburb : String) :
    (∀ l, create_price_chart ts suburb = some l →
      (∀ o : Obs, (∃ y q : Nat, (y, q, o) ∈ l) ↔
        (o ∈ ts.filter (fun x => x.suburb == suburb) ∧
         (extractYear o.period).isSome ∧ (extractQuarter o.period).isSome)) ∧
      (∀ y q : Nat, ∀ o : Obs, (y, q, o) ∈ l →
        extractYear o.period = some y ∧ extractQuarter o.period = some q) ∧
      l.Pairwise chartRel) ∧
    (create_price_chart ts suburb = none →
      ∀ o ∈ ts.filter (fun x => x.suburb == suburb),
        (extractYear o.period).isNone ∨ (extractQuarter o.period).isNone) := by
  unfold create_price_chart
  set s := ts.filter (fun x => x.suburb == suburb) with hs
  constructor
  · intro l hl
    by_cases he : s.isEmpty
    · simp [he] at hl
    · by_cases hall : s.all (fun o => (extractYear o.period).isNone) ||
          s.all (fun o => (extractQuarter o.period).isNone)
      · simp [he, hall] at hl
      · simp only [he, hall, Bool.false_eq_true, if_neg, not_false_eq_true,
          Option.some.injEq] at hl
        subst hl
        refine ⟨?_, ?_, ?_⟩
        · intro o
          constructor
          · rintro ⟨y, q, hmem⟩
            rw [List.mem_insertionSort] at hmem
            obtain ⟨a, ha, hpa⟩ := List.mem_filterMap.mp hmem
            obtain ⟨rfl, hy, hq⟩ := parseChartRow_eq_some a y q o hpa
            exact ⟨ha, by rw [hy]; rfl, by rw [hq]; rfl⟩
          · rintro ⟨ho, hys, hqs⟩
            obtain ⟨y, hy⟩ := Option.isSome_iff_exists.mp hys
            obtain ⟨q, hq⟩ := Option.isSome_iff_exists.mp hqs
            refine ⟨y, q, ?_⟩
            rw [List.mem_insertionSort]
            refine List.mem_filterMap.mpr ⟨o, ho, ?_⟩
            unfold parseChartRow
            rw [hy, hq]
        · intro y q o hmem
          rw [List.mem_insertionSort] at hmem
          obtain ⟨a, _, hpa⟩ := List.mem_filterMap.mp hmem
          obtain ⟨rfl, hy, hq⟩ := parseChartRow_eq_some a y q o hpa
          exact ⟨hy, hq⟩
        · exact List.sorted_insertionSort chartRel _
  · intro hl o ho
    by_cases he : s.isEmpty
    · rw [List.isEmpty_iff] at he
      rw [he] at ho
      simp at ho
    · by_cases hall : s.all (fun o => (extractYear o.period).isNone) ||
          s.all (fun o => (extractQuarter o.period).isNone)
      · rcases Bool.or_eq_true_iff.mp hall with h | h
        · exact Or.inl (by simpa using (List.all_eq_true.mp h o ho))
        · exact Or.inr (by simpa using (List.all_eq_true.mp h o ho))
      · simp [he, hall] at hl

/-- Witness for C4: in a series containing "2023Q2" and "Early 2023",
the retained chart row for "2023Q2" is annotated (2023, 2). -/
theorem chart_parse_and_sort_witness :
    extractYear (Obs.period ⟨"A", "2023Q2", some 1⟩) = some 2023 ∧
    extractQuarter (Obs.period ⟨"A", "2023Q2", some 1⟩) = some 2 :=
  ((chart_parse_and_sort [⟨"A", "2023Q2", some 1⟩, ⟨"A", "Early 2023", some 2⟩] "A").1
    [(2023, 2, ⟨"A", "2023Q2", some 1⟩)] (by decide)).2.1 2023 2
    ⟨"A", "2023Q2", some 1⟩ (by decide)

/-- `annual.iloc[0]` of the annual table (the fallback row is irrelevant:
the table is nonempty wherever this is used). -/
def firstYRow (l : List YRow) : YRow := l.headD ⟨0, 0, none, none⟩

/-- `annual.iloc[-1]` of the annual table. -/
def lastYRow (l : List YRow) : YRow := l.getLastD ⟨0, 0, none, none⟩

/-- **C3**: the CAGR/total-growth figures are produced iff the annual
sequence has at least two points, its first value is positive and its
year span is positive; when produced, CAGR = ((last/first)^(1/span) − 1)
× 100 and total growth = (last − first)/first × 100; when any
precondition fails the result is `none` (unavailable), never `0`. -/
theorem cagr_iff_preconditions (annual : List YRow) :
    ((cagrSummary annual).isSome ↔
      (2 ≤ annual.length ∧ 0 < (firstYRow annual).price ∧
        0 < ((lastYRow annual).year : ℤ) - ((firstYRow annual).year : ℤ))) ∧
    (∀ (c : ℝ) (g : ℚ), cagrSummary annual = some (c, g) →
      c = ((((lastYRow annual).price / (firstYRow annual).price : ℚ) : ℝ) ^
        ((1 : ℝ) / ((((lastYRow annual).year : ℤ) - ((firstYRow annual).year : ℤ) : ℤ) : ℝ)) - 1)
          * 100 ∧
      g = ((lastYRow annual).price - (firstYRow annual).price) / (firstYRow annual).price
          * 100) := by
  match annual with
  | [] =>
    constructor
    · simp [cagrSummary]
    · intro c g h
      simp [cagrSummary] at h
  | [a] =>
    constructor
    · simp [cagrSummary]
    · intro c g h
      simp [cagrSummary] at h
  | a :: b :: rest =>
    have hfirst : firstYRow (a :: b :: rest) = a := rfl
    have hlast : lastYRow (a :: b :: rest) = (a :: b :: rest).getLastD a := rfl
    by_cases hcond : 0 < a.price ∧
        0 < ((((a :: b :: rest).getLastD a).year : ℤ) - (a.year : ℤ))
    · constructor
      · rw [show cagrSummary (a :: b :: rest) = some _ from by
          simp only [cagrSummary]
          rw [if_pos hcond]]
        simp only [Option.isSome_some, true_iff]
        refine ⟨by simp [List.length_cons], ?_, ?_⟩
        · rw [hfirst]
          exact hcond.1
        · rw [hfirst, hlast]
          exact hcond.2
      · intro c g h
        simp only [cagrSummary] at h
        rw [if_pos hcond] at h
        simp only [Option.some.injEq, Prod.mk.injEq] at h
        rw [hfirst, hlast, ← h.1, ← h.2]
        exact ⟨rfl, rfl⟩
    · constructor
      · rw [show cagrSummary (a :: b :: rest) = none from by
          simp only [cagrSummary]
          rw [if_neg hcond]]
        simp only [Option.isSome_none, Bool.false_eq_true, false_iff]
        intro hc
        rw [hfirst, hlast] at hc
        exact hcond ⟨hc.2.1, hc.2.2⟩
      · intro c g h
        simp only [cagrSummary] at h
        rw [if_neg hcond] at h
        simp at h

/-- Witness for C3 at the spec's example: annual points (2019, 500000)
and (2025, 650000) satisfy every precondition, so CAGR is produced. -/
theorem cagr_iff_preconditions_witness :
    (cagrSummary [⟨2019, 500000, none, none⟩, ⟨2025, 650000, none, none⟩]).isSome :=
  (cagr_iff_preconditions [⟨2019, 500000, none, none⟩, ⟨2025, 650000, none, none⟩]).1.mpr
    ⟨by norm_num, by norm_num [firstYRow], by norm_num [firstYRow, lastYRow, List.getLastD]⟩

theorem foldl_max_self (xs : List ℚ) : ∀ x : ℚ, x ≤ xs.foldl max x := by
  induction xs with
  | nil => intro x; exact le_refl x
  | cons y ys ih =>
    intro x
    exact le_trans (le_max_left x y) (ih (max x y))

theorem foldl_max_ub (xs : List ℚ) : ∀ x : ℚ, ∀ y ∈ xs, y ≤ xs.foldl max x := by
  induction xs with
  | nil => intro x y hy; simp at hy
  | cons z zs ih =>
    intro x y hy
    rcases List.mem_cons.mp hy with rfl | hy
    · exact le_trans (le_max_right x y) (foldl_max_self zs (max x y))
    · exact ih (max x z) y hy

theorem foldl_max_mem (xs : List ℚ) : ∀ x : ℚ, xs.foldl max x ∈ x :: xs := by
  induction xs with
  | nil => intro x; simp
  | cons y ys ih =>
    intro x
    rw [List.foldl_cons]
    have := ih (max x y)
    rcases List.mem_cons.mp this with h | h
    · rcases max_choice x y with hm | hm
      · rw [h, hm]; exact List.mem_cons_self _ _
      · rw [h, hm]; exact List.mem_cons_of_mem _ (List.mem_cons_self _ _)
    · exact List.mem_cons_of_mem _ (List.mem_cons_of_mem _ h)

theorem foldl_min_self (xs : List ℚ) : ∀ x : ℚ, xs.foldl min x ≤ x := by
  induction xs with
  | nil => intro x; exact le_refl x
  | cons y ys ih =>
    intro x
    exact le_trans (ih (min x y)) (min_le_left x y)

theorem foldl_min_lb (xs : List ℚ) : ∀ x : ℚ, ∀ y ∈ xs, xs.foldl min x ≤ y := by
  induction xs with
  | nil => intro x y hy; simp at hy
  | cons z zs ih =>
    intro x y hy
    rcases List.mem_cons.mp hy with rfl | hy
    · exact le_trans (foldl_min_self zs (min x y)) (min_le_right x y)
    · exact ih (min x z) y hy

theorem foldl_min_mem (xs : List ℚ) : ∀ x : ℚ, xs.foldl min x ∈ x :: xs := by
  induction xs with
  | nil => intro x; simp
  | cons y ys ih =>
    intro x
    rw [List.foldl_cons]
    have := ih (min x y)
    rcases List.mem_cons.mp this with h | h
    · rcases min_choice x y with hm | hm
      · rw [h, hm]; exact List.mem_cons_self _ _
      · rw [h, hm]; exact List.mem_cons_of_mem _ (List.mem_cons_self _ _)
    · exact List.mem_cons_of_mem _ (List.mem_cons_of_mem _ h)

theorem qmax_spec (l : List ℚ) (m : ℚ) (h : qmax l = some m) :
    m ∈ l ∧ ∀ x ∈ l, x ≤ m := by
  cases l with
  | nil => simp [qmax] at h
  | cons x xs =>
    simp only [qmax, Option.some.injEq] at h
    subst h
    constructor
    · exact foldl_max_mem xs x
    · intro y hy
      rcases List.mem_cons.mp hy with rfl | hy
      · exact foldl_max_self xs y
      · exact foldl_max_ub xs x y hy

theorem qmin_spec (l : List ℚ) (m : ℚ) (h : qmin l = some m) :
    m ∈ l ∧ ∀ x ∈ l, m ≤ x := by
  cases l with
  | nil => simp [qmin] at h
  | cons x xs =>
    simp only [qmin, Option.some.injEq] at h
    subst h
    constructor
    · exact foldl_min_mem xs x
    · intro y hy
      rcases List.mem_cons.mp hy with rfl | hy
      · exact foldl_min_self xs y
      · exact foldl_min_lb xs x y hy

theorem bestRow_spec (l : List YRow) (hd : definedPcts l ≠ []) :
    ∃ b, bestRow l = some b ∧ b ∈ l ∧
      ∃ mb, b.pct = some mb ∧ ∀ r ∈ l, ∀ g, r.pct = some g → g ≤ mb := by
  cases hq : qmax (definedPcts l) with
  | none =>
    cases hdp : definedPcts l with
    | nil => exact absurd hdp hd
    | cons x xs => rw [hdp] at hq; simp [qmax] at hq
  | some m =>
    obtain ⟨hmem, hub⟩ := qmax_spec _ m hq
    obtain ⟨r, hr, hrp⟩ := List.mem_filterMap.mp hmem
    have hfind : (l.find? (fun x => x.pct == some m)).isSome :=
      List.find?_isSome.mpr ⟨r, hr, by simp [hrp]⟩
    obtain ⟨b, hb⟩ := Option.isSome_iff_exists.mp hfind
    refine ⟨b, ?_, List.mem_of_find?_eq_some hb, m, ?_, ?_⟩
    · unfold bestRow
      rw [hq]
      exact hb
    · have := List.find?_some hb
      simpa using this
    · intro x hx g hg
      exact hub g (List.mem_filterMap.mpr ⟨x, hx, hg⟩)

theorem worstRow_spec (l : List YRow) (hd : definedPcts l ≠ []) :
    ∃ w, worstRow l = some w ∧ w ∈ l ∧
      ∃ mw, w.pct = some mw ∧ ∀ r ∈ l, ∀ g, r.pct = some g → mw ≤ g := by
  cases hq : qmin (definedPcts l) with
  | none =>
    cases hdp : definedPcts l with
    | nil => exact absurd hdp hd
    | cons x xs => rw [hdp] at hq; simp [qmin] at hq
  | some m =>
    obtain ⟨hmem, hlb⟩ := qmin_spec _ m hq
    obtain ⟨r, hr, hrp⟩ := List.mem_filterMap.mp hmem
    have hfind : (l.find? (fun x => x.pct == some m)).isSome :=
      List.find?_isSome.mpr ⟨r, hr, by simp [hrp]⟩
    obtain ⟨w, hw⟩ := Option.isSome_iff_exists.mp hfind
    refine ⟨w, ?_, List.mem_of_find?_eq_some hw, m, ?_, ?_⟩
    · unfold worstRow
      rw [hq]
      exact hw
    · have := List.find?_some hw
      simpa using this
    · intro x hx g hg
      exact hlb g (List.mem_filterMap.mpr ⟨x, hx, hg⟩)

/-- Counterexample to **C7** as stated: for annual aggregates 0 (2019),
5 (2020), 6 (2021) the 2021 point has a defined delta (+20%), yet no
Best/Worst Year is reported at all, because the Best/Worst cards are
rendered inside the CAGR precondition block and the first price is 0. -/
theorem best_year_counterexample :
    definedPcts (addGrowth [(2019, 0), (2020, 5), (2021, 6)]) ≠ [] ∧
    renderGrowthSummary (addGrowth [(2019, 0), (2020, 5), (2021, 6)]) = none := by
  constructor
  · with_unfolding_all decide
  · have h : addGrowth [(2019, 0), (2020, 5), (2021, 6)] =
        [⟨2019, 0, none, none⟩, ⟨2020, 5, some 5, none⟩, ⟨2021, 6, some 1, some 20⟩] := by
      with_unfolding_all decide
    rw [renderGrowthSummary, h]
    have hc : cagrSummary [(⟨2019, 0, none, none⟩ : YRow), ⟨2020, 5, some 5, none⟩,
        ⟨2021, 6, some 1, some 20⟩] = none := by
      simp only [cagrSummary]
      rw [if_neg]
      intro hcond
      have := hcond.1
      simp at this
    rw [hc]

/-- **C7 (amended)**: whenever the Growth Summary block is rendered at
all (the CAGR preconditions hold) and at least one annual point has a
defined YoY percentage delta, the reported Best Year attains the maximum
defined percentage delta and the Worst Year the minimum, both chosen
among defined-delta points only, and neither is the first annual point
(whose delta is undefined). -/
theorem best_worst_year_selection (pl : List (Nat × ℚ))
    (hc : (cagrSummary (addGrowth pl)).isSome)
    (hd : definedPcts (addGrowth pl) ≠ []) :
    ∃ cg b w, renderGrowthSummary (addGrowth pl) = some (cg, some b, some w) ∧
      b ∈ addGrowth pl ∧ w ∈ addGrowth pl ∧
      (∃ mb, b.pct = some mb ∧ ∀ r ∈ addGrowth pl, ∀ g, r.pct = some g → g ≤ mb) ∧
      (∃ mw, w.pct = some mw ∧ ∀ r ∈ addGrowth pl, ∀ g, r.pct = some g → mw ≤ g) ∧
      (∀ h0 tl, addGrowth pl = h0 :: tl → b ≠ h0 ∧ w ≠ h0) := by
  obtain ⟨cg, hcg⟩ := Option.isSome_iff_exists.mp hc
  obtain ⟨b, hb, hbmem, mb, hbp, hbub⟩ := bestRow_spec (addGrowth pl) hd
  obtain ⟨w, hw, hwmem, mw, hwp, hwlb⟩ := worstRow_spec (addGrowth pl) hd
  refine ⟨cg, b, w, ?_, hbmem, hwmem, ⟨mb, hbp, hbub⟩, ⟨mw, hwp, hwlb⟩, ?_⟩
  · rw [renderGrowthSummary, hcg, hb, hw]
  · intro h0 tl heq
    cases pl with
    | nil => simp [addGrowth] at heq
    | cons a rest =>
      obtain ⟨y, p⟩ := a
      have hh : h0 = ⟨y, p, none, none⟩ := by
        simp only [addGrowth] at heq
        exact (List.cons_eq_cons.mp heq).1.symm
      constructor
      · intro hbe
        rw [hbe, hh] at hbp
        simp at hbp
      · intro hwe
        rw [hwe, hh] at hwp
        simp at hwp

/-- Witness for the amended C7 on aggregates 100, 150, 120: best year
2020 (+50%), worst year 2021 (−20%), the base year 2019 never
selected. -/
theorem best_worst_year_selection_witness :
    (cagrSummary (addGrowth [(2019, 100), (2021, 150), (2024, 120)])).isSome ∧
    definedPcts (addGrowth [(2019, 100), (2021, 150), (2024, 120)]) ≠ [] := by
  have h := best_worst_year_selection [(2019, 100), (2021, 150), (2024, 120)]
    (by
      rw [show addGrowth [(2019, 100), (2021, 150), (2024, 120)] =
          [⟨2019, 100, none, none⟩, ⟨2021, 150, some 50, some 50⟩,
            ⟨2024, 120, some (-30), some (-20)⟩] from by with_unfolding_all decide]
      simp only [cagrSummary]
      rw [if_pos (by constructor <;> norm_num [List.getLastD])]
      rfl)
    (by with_unfolding_all decide)
  refine ⟨?_, by with_unfolding_all decide⟩
  obtain ⟨cg, b, w, hr, _⟩ := h
  rw [renderGrowthSummary] at hr
  cases hcs : cagrSummary (addGrowth [(2019, 100), (2021, 150), (2024, 120)]) with
  | none => rw [hcs] at hr; simp at hr
  | some x => simp [hcs]

/-- Witness for the amended C5: the 2023 aggregate for the series
("Early 2023", 100), ("2023 Q1", 200) is the median of both values. -/
theorem annual_aggregate_formula_witness :
    (⟨2023, (150 : ℚ), none, none⟩ : YRow).price =
      median (yearValues (parseYearRows
        (List.filter (fun o => o.suburb == "A")
          [⟨"A", "Early 2023", some 100⟩, ⟨"A", "2023 Q1", some 200⟩]))
        (⟨2023, (150 : ℚ), none, none⟩ : YRow).year) :=
  (annual_aggregate_formula [⟨"A", "Early 2023", some 100⟩, ⟨"A", "2023 Q1", some 200⟩] "A"
    [⟨2023, 150, none, none⟩] (by with_unfolding_all decide)).1
    ⟨2023, 150, none, none⟩ (by decide)
